import Mathlib

/-!
Verification development for the graph-viewer repository.

The repository positions N visual items on a circle, connects every pair of
items by an SVG path, lets the user cycle each path through three visual
states, and recomputes the layout when the viewport crosses a breakpoint.

This file gives a shallow embedding of the relevant modules:

* `GraphManager` (src/unnamed/part_001): adjacency matrix over item indices.
  The JS adjacency matrix is an `imageCount × imageCount` array of 0/1
  numbers; we embed it as a total function `ℤ → ℤ → ℕ` together with the
  `imageCount` field.  All array reads/writes in the source are guarded by
  `isValidEdge`, which keeps the indices inside `[0, imageCount)`, where the
  function agrees with the array; `adjacencyMatrix.length` always equals
  `imageCount` in the source (the matrix is only (re)created by
  `initializeMatrix`).  JS indices are arbitrary numbers, hence `ℤ`.

* `MathUtils` (src/src/js/utils/math-utils.js): circle geometry with a
  position cache keyed by strings `pos_<index>_<count>` / `elem_<index>_<count>`
  and a config fingerprint string `<centerX>_<centerY>_<radius>_<itemSize>`.
  Number-to-string rendering contains no underscore, so both renderings are
  injective; we embed the keys as the tuples themselves
  (`Bool × ℤ × ℕ` with `true` for the `elem_` prefix, and `ℝ × ℝ × ℝ × ℝ`).
  JS floating point numbers are idealised as `ℝ`.

* `PathManager` (src/unnamed/part_002): connection lines with per-line state.
  DOM path elements are opaque identities; we embed them as `ℕ` ids handed
  out by a counter.  The SVG `d`-strings built by `createLinearPath` /
  `createArcPath` are injective renderings of the segment/quadratic
  descriptors, embedded as the inductive `PathData`.

* `ResponsiveConfigManager` (src/src/js/utils/dom-utils.js): breakpoint
  detection and the debounced resize listener.  Viewport widths are embedded
  as `ℚ` (browser widths are finite decimals).  Subscribed callbacks are
  opaque identities (`ℕ`); an invocation is recorded as a pair of the
  callback id and the breakpoint it received.
-/

namespace GraphViewer

/-! ## Canonical pair enumeration

`for (i = 0; i < n; i++) for (j = i + 1; j < n; j++)` — the loop shape used
both by `GraphManager.setupCompleteGraph`/`getConnections` and by
`PathManager._rebuildAllPaths`. -/

def pairsNat (n : ℕ) : List (ℕ × ℕ) :=
  (List.range n).flatMap fun i => (List.range' (i + 1) (n - (i + 1))).map fun j => (i, j)

/-! ## GraphManager (src/unnamed/part_001) -/

structure GraphManager where
  imageCount : ℕ
  adjacencyMatrix : ℤ → ℤ → ℕ

/-- `initializeMatrix`: fresh all-zero matrix (part_001 lines 18-22). -/
def initializeMatrix : ℤ → ℤ → ℕ := fun _ _ => 0

/-- `isValidEdge` (part_001 lines 74-79): `i !== j && i >= 0 && j >= 0 &&
i < matrix.length && j < matrix.length`, with `matrix.length = imageCount`. -/
def GraphManager.isValidEdge (g : GraphManager) (i j : ℤ) : Prop :=
  i ≠ j ∧ 0 ≤ i ∧ 0 ≤ j ∧ i < (g.imageCount : ℤ) ∧ j < (g.imageCount : ℤ)

instance (g : GraphManager) (i j : ℤ) : Decidable (g.isValidEdge i j) := by
  unfold GraphManager.isValidEdge; infer_instance

/-- `addEdge` (part_001 lines 49-54): guarded by `isValidEdge`, then
`matrix[i][j] = 1; matrix[j][i] = 1`.  The two successive array writes are
embedded as a two-case function update (the later write is the outer case). -/
def GraphManager.addEdge (g : GraphManager) (i j : ℤ) : GraphManager :=
  if g.isValidEdge i j then
    { g with adjacencyMatrix := fun a b =>
        if a = j ∧ b = i then 1
        else if a = i ∧ b = j then 1
        else g.adjacencyMatrix a b }
  else g

/-- `removeEdge` (part_001 lines 61-66): guarded by `isValidEdge`, then
`matrix[i][j] = 0; matrix[j][i] = 0`. -/
def GraphManager.removeEdge (g : GraphManager) (i j : ℤ) : GraphManager :=
  if g.isValidEdge i j then
    { g with adjacencyMatrix := fun a b =>
        if a = j ∧ b = i then 0
        else if a = i ∧ b = j then 0
        else g.adjacencyMatrix a b }
  else g

/-- First loop of `setupCompleteGraph` (part_001 lines 29-31):
`for i in [0,imageCount): matrix[i][i] = 0`. -/
def GraphManager.zeroDiagonal (g : GraphManager) : GraphManager :=
  (List.range g.imageCount).foldl
    (fun acc i =>
      { acc with adjacencyMatrix := fun a b =>
          if a = (i : ℤ) ∧ b = (i : ℤ) then 0 else acc.adjacencyMatrix a b })
    g

/-- Second loop of `setupCompleteGraph` (part_001 lines 34-38): `addEdge i j`
for every `i < j < imageCount`, in loop order. -/
def GraphManager.addEdges (g : GraphManager) (l : List (ℕ × ℕ)) : GraphManager :=
  l.foldl (fun acc p => acc.addEdge (p.1 : ℤ) (p.2 : ℤ)) g

/-- `setupCompleteGraph` (part_001 lines 27-42). -/
def GraphManager.setupCompleteGraph (g : GraphManager) : GraphManager :=
  (g.zeroDiagonal).addEdges (pairsNat g.imageCount)

/-- The `GraphManager` constructor (part_001 lines 5-12) with an explicit
item count: `initializeMatrix` followed by `setupCompleteGraph`. -/
def mkGraphManager (imageCount : ℕ) : GraphManager :=
  GraphManager.setupCompleteGraph { imageCount := imageCount, adjacencyMatrix := initializeMatrix }

/-- `getConnections` (part_001 lines 85-95): upper-triangle enumeration of
entries equal to 1; `matrix[i].length = imageCount`. -/
def GraphManager.getConnections (g : GraphManager) : List (ℕ × ℕ) :=
  (List.range g.imageCount).flatMap fun i =>
    (List.range' (i + 1) (g.imageCount - (i + 1))).filterMap fun (j : ℕ) =>
      if g.adjacencyMatrix (i : ℤ) (j : ℤ) = 1 then some (i, j) else none

/-- `areConnected` (part_001 lines 103-106): `false` on invalid pairs,
otherwise `matrix[i][j] === 1`. -/
def GraphManager.areConnected (g : GraphManager) (i j : ℤ) : Bool :=
  if g.isValidEdge i j then decide (g.adjacencyMatrix i j = 1) else false

/-- Validity of a canonical `ℕ` pair against an item count: the condition
`isValidEdge` evaluates to on the coerced pair. -/
def validPair (n : ℕ) (p : ℕ × ℕ) : Prop :=
  p.1 ≠ p.2 ∧ p.1 < n ∧ p.2 < n

instance (n : ℕ) (p : ℕ × ℕ) : Decidable (validPair n p) := by
  unfold validPair; infer_instance

/-! ## MathUtils geometry (src/src/js/utils/math-utils.js)

JS numbers are idealised as `ℝ`.  The responsive `GALLERY_CONFIG.current`
object is embedded as an explicit `LayoutConfig` argument (in the source it
is a proxy reading the active responsive configuration). -/

structure Point where
  x : ℝ
  y : ℝ

/-- The fields of `GALLERY_CONFIG.current` that MathUtils and PathManager
read.  `arcHeightFactor` embeds the source field named `arcHeightRatio`. -/
structure LayoutConfig where
  centerX : ℝ
  centerY : ℝ
  radius : ℝ
  itemSize : ℝ
  itemCount : ℕ
  arcHeightFactor : ℝ

/-- The `totalItems || config.itemCount` default: `0` is the only falsy `ℕ`. -/
def resolveItemCount (cfg : LayoutConfig) (totalItems : ℕ) : ℕ :=
  if totalItems = 0 then cfg.itemCount else totalItems

/-- `getItemAngle` (math-utils.js line 110-112), also computed inline by
`getItemPosition`: `(index / itemCount) * Math.PI * 2`. -/
noncomputable def getItemAngle (index : ℤ) (totalItems : ℕ) : ℝ :=
  ((index : ℝ) / (totalItems : ℝ)) * Real.pi * 2

/-- The position value computed by the cache-miss branch of `getItemPosition`
(math-utils.js lines 49-53). -/
noncomputable def itemPositionFormula (cfg : LayoutConfig) (index : ℤ) (itemCount : ℕ) : Point :=
  { x := cfg.centerX + cfg.radius * Real.cos (getItemAngle index itemCount),
    y := cfg.centerY + cfg.radius * Real.sin (getItemAngle index itemCount) }

/-- The value computed by the cache-miss branch of `getItemElementPosition`
(math-utils.js lines 78-83): circle position minus half the item size. -/
noncomputable def itemElementPositionFormula (cfg : LayoutConfig) (index : ℤ) (itemCount : ℕ) :
    Point :=
  { x := (itemPositionFormula cfg index itemCount).x - cfg.itemSize / 2,
    y := (itemPositionFormula cfg index itemCount).y - cfg.itemSize / 2 }

/-- The static mutable state of `MathUtils`: `_positionCache` (a map keyed by
strings `pos_<index>_<count>` / `elem_<index>_<count>`, embedded injectively
as `Bool × ℤ × ℕ` with `true` for `elem_`) and `_lastConfig` (a fingerprint
string `<centerX>_<centerY>_<radius>_<itemSize>`, embedded injectively as the
tuple). -/
structure MathUtilsState where
  positionCache : Bool × ℤ × ℕ → Option Point
  lastConfig : Option (ℝ × ℝ × ℝ × ℝ)

/-- The config fingerprint built by `_clearCacheIfNeeded` (math-utils.js
line 14). -/
def configFingerprint (cfg : LayoutConfig) : ℝ × ℝ × ℝ × ℝ :=
  (cfg.centerX, cfg.centerY, cfg.radius, cfg.itemSize)

/-- `_clearCacheIfNeeded` (math-utils.js lines 12-20): wipe the whole cache
and remember the fingerprint whenever the fingerprint changed. -/
noncomputable def clearCacheIfNeeded (cfg : LayoutConfig) (st : MathUtilsState) : MathUtilsState :=
  if st.lastConfig = some (configFingerprint cfg) then st
  else { positionCache := fun _ => none, lastConfig := some (configFingerprint cfg) }

/-- `getItemPosition` (math-utils.js lines 37-58).  The source binds the
cleared state and the resolved count to locals; here they are written out in
full at each use. -/
noncomputable def getItemPosition (cfg : LayoutConfig) (st : MathUtilsState) (index : ℤ)
    (totalItems : ℕ) : Point × MathUtilsState :=
  match (clearCacheIfNeeded cfg st).positionCache (false, index, resolveItemCount cfg totalItems) with
  | some p => (p, clearCacheIfNeeded cfg st)
  | none =>
      (itemPositionFormula cfg index (resolveItemCount cfg totalItems),
       { clearCacheIfNeeded cfg st with
          positionCache := fun k =>
            if k = (false, index, resolveItemCount cfg totalItems) then
              some (itemPositionFormula cfg index (resolveItemCount cfg totalItems))
            else (clearCacheIfNeeded cfg st).positionCache k })

/-- The offset subtraction done by `getItemElementPosition` on the value of
the inner `getItemPosition` call (math-utils.js lines 79-83). -/
noncomputable def elemPointOf (cfg : LayoutConfig) (centerPos : Point) : Point :=
  { x := centerPos.x - cfg.itemSize / 2, y := centerPos.y - cfg.itemSize / 2 }

/-- Cache insertion done at the end of `getItemElementPosition`, applied to
the result pair of the inner `getItemPosition` call. -/
noncomputable def insertElem (cfg : LayoutConfig) (index : ℤ) (totalItems : ℕ)
    (r : Point × MathUtilsState) : MathUtilsState :=
  { r.2 with
    positionCache := fun k =>
      if k = (true, index, resolveItemCount cfg totalItems) then some (elemPointOf cfg r.1)
      else r.2.positionCache k }

/-- `getItemElementPosition` (math-utils.js lines 66-88): clear-if-needed,
consult the `elem_` cache entry, otherwise call `getItemPosition` (which also
threads the cache) and subtract half the item size. -/
noncomputable def getItemElementPosition (cfg : LayoutConfig) (st : MathUtilsState) (index : ℤ)
    (totalItems : ℕ) : Point × MathUtilsState :=
  match (clearCacheIfNeeded cfg st).positionCache (true, index, resolveItemCount cfg totalItems) with
  | some p => (p, clearCacheIfNeeded cfg st)
  | none =>
      (elemPointOf cfg
        (getItemPosition cfg (clearCacheIfNeeded cfg st) index (resolveItemCount cfg totalItems)).1,
       insertElem cfg index totalItems
        (getItemPosition cfg (clearCacheIfNeeded cfg st) index (resolveItemCount cfg totalItems)))

/-- `clearCache` (math-utils.js lines 247-250). -/
def clearCache (_st : MathUtilsState) : MathUtilsState :=
  { positionCache := fun _ => none, lastConfig := none }

/-- Initial static state of the `MathUtils` class: empty cache, no
fingerprint. -/
def initialMathUtilsState : MathUtilsState :=
  { positionCache := fun _ => none, lastConfig := none }

/-- Cache soundness: every cached entry is the formula value for its key,
computed under any configuration carrying the remembered fingerprint. -/
def CacheConsistent (st : MathUtilsState) : Prop :=
  ∀ (isElem : Bool) (index : ℤ) (itemCount : ℕ) (p : Point),
    st.positionCache (isElem, index, itemCount) = some p →
    ∀ cfg : LayoutConfig, st.lastConfig = some (configFingerprint cfg) →
      p = if isElem then itemElementPositionFormula cfg index itemCount
          else itemPositionFormula cfg index itemCount

/-- States reachable by any interleaving of position queries and cache
clears, from the initial `MathUtils` state. -/
inductive ReachableMU : MathUtilsState → Prop where
  | init : ReachableMU initialMathUtilsState
  | pos : ∀ (cfg : LayoutConfig) (index : ℤ) (totalItems : ℕ) (st : MathUtilsState),
      ReachableMU st → ReachableMU (getItemPosition cfg st index totalItems).2
  | elem : ∀ (cfg : LayoutConfig) (index : ℤ) (totalItems : ℕ) (st : MathUtilsState),
      ReachableMU st → ReachableMU (getItemElementPosition cfg st index totalItems).2
  | clear : ∀ st : MathUtilsState, ReachableMU st → ReachableMU (clearCache st)

inductive GeometryError where
  | invalidIndex

/-- Modelled from the spec: `circlePosition(index, totalItems, config) ->
Point`: `center + radius·(cos θ, sin θ)`, `θ = 2π·index/totalItems`; `Fails
with InvalidIndex if index outside [0,totalItems)` (spec §4.1).  The
repository code has no such failure path; this definition follows the spec
words so the two can be compared. -/
noncomputable def specCirclePosition (cfg : LayoutConfig) (index : ℤ) (totalItems : ℕ) :
    Except GeometryError Point :=
  if 0 ≤ index ∧ index < (totalItems : ℤ) then
    Except.ok (itemPositionFormula cfg index totalItems)
  else Except.error GeometryError.invalidIndex

/-- `getMidpoint` (math-utils.js lines 147-152). -/
noncomputable def getMidpoint (point1 point2 : Point) : Point :=
  { x := (point1.x + point2.x) / 2, y := (point1.y + point2.y) / 2 }

/-- `normalizeVector` (math-utils.js lines 131-139): explicit zero-length
guard before dividing. -/
noncomputable def normalizeVector (v : Point) : Point :=
  if Real.sqrt (v.x * v.x + v.y * v.y) = 0 then { x := 0, y := 0 }
  else { x := v.x / Real.sqrt (v.x * v.x + v.y * v.y),
         y := v.y / Real.sqrt (v.x * v.x + v.y * v.y) }

/-- The `heightRatio !== undefined ? heightRatio : config.arcHeightRatio`
default of `getArcControlPoint`. -/
def arcFactorOf (cfg : LayoutConfig) (heightFactor : Option ℝ) : ℝ :=
  match heightFactor with
  | some r => r
  | none => cfg.arcHeightFactor

/-- `getArcControlPoint` (math-utils.js lines 201-219): midpoint displaced
toward the configured centre by `radius * factor` along the normalized
midpoint-to-centre vector. -/
noncomputable def getArcControlPoint (cfg : LayoutConfig) (point1 point2 : Point)
    (heightFactor : Option ℝ) : Point :=
  { x := (getMidpoint point1 point2).x +
      (normalizeVector
        { x := cfg.centerX - (getMidpoint point1 point2).x,
          y := cfg.centerY - (getMidpoint point1 point2).y }).x *
      (cfg.radius * arcFactorOf cfg heightFactor),
    y := (getMidpoint point1 point2).y +
      (normalizeVector
        { x := cfg.centerX - (getMidpoint point1 point2).x,
          y := cfg.centerY - (getMidpoint point1 point2).y }).y *
      (cfg.radius * arcFactorOf cfg heightFactor) }

/-- Desktop-tier layout configuration (dom-utils.js `BREAKPOINTS.DESKTOP`
through `_calculateConfig`, with the default 8 items), used as a concrete
input for witnesses. -/
noncomputable def cfgDesktop : LayoutConfig :=
  { centerX := 300, centerY := 300, radius := 250, itemSize := 100, itemCount := 8,
    arcHeightFactor := 0.3 }

/-- Tablet-tier layout configuration with 6 items, used as a concrete input
for witnesses. -/
noncomputable def cfgTablet : LayoutConfig :=
  { centerX := 200, centerY := 200, radius := 150, itemSize := 80, itemCount := 6,
    arcHeightFactor := 0.3 }

/-! ## PathManager (src/unnamed/part_002)

The SVG surface is opaque to the model: `isEnabled` is the
`!!connectionSvg` flag, path elements are `ℕ` identities handed out by a
counter, and the `d`-attribute strings produced by `createLinearPath` /
`createArcPath` (injective renderings of segment/quadratic descriptors) are
embedded as `PathData`. -/

/-- `PATH_STATES.PINK_SOLID` (config.js line 167). -/
def PATH_STATES_PINK_SOLID : ℕ := 0

/-- `PATH_STATES.GREEN_SOLID` (config.js line 168). -/
def PATH_STATES_GREEN_SOLID : ℕ := 1

/-- `PATH_STATES.TRANSPARENT` (config.js line 169). -/
def PATH_STATES_TRANSPARENT : ℕ := 2

/-- Descriptor of an SVG path `d`-string: `M x1 y1 L x2 y2` or
`M x1 y1 Q cx cy x2 y2`. -/
inductive PathData where
  | linear (p1 p2 : Point)
  | quadratic (p1 ctrl p2 : Point)

def PathData.isLinear : PathData → Bool
  | PathData.linear _ _ => true
  | PathData.quadratic _ _ _ => false

def PathData.isQuadratic : PathData → Bool
  | PathData.linear _ _ => false
  | PathData.quadratic _ _ _ => true

/-- `isDiagonalPair` (math-utils.js lines 97-102): even item count and
`|index1 - index2| === itemCount / 2`.  For odd counts the `&&`
short-circuits before the division, so `ℕ` division is faithful. -/
def isDiagonalPair (cfg : LayoutConfig) (index1 index2 : ℕ) (totalItems : ℕ) : Prop :=
  resolveItemCount cfg totalItems % 2 = 0 ∧
  ((index1 : ℤ) - (index2 : ℤ)).natAbs = resolveItemCount cfg totalItems / 2

instance (cfg : LayoutConfig) (index1 index2 totalItems : ℕ) :
    Decidable (isDiagonalPair cfg index1 index2 totalItems) := by
  unfold isDiagonalPair; infer_instance

/-- `createLinearPath` (part_002 lines 219-221). -/
def createLinearPath (pos1 pos2 : Point) : PathData :=
  PathData.linear pos1 pos2

/-- `createArcPath` (part_002 lines 229-234): control point from
`getArcControlPoint(pos1, pos2, config.arcHeightRatio)`. -/
noncomputable def createArcPath (cfg : LayoutConfig) (pos1 pos2 : Point) : PathData :=
  PathData.quadratic pos1 (getArcControlPoint cfg pos1 pos2 (some cfg.arcHeightFactor)) pos2

/-- One entry of `connectionLines`.  `fromIdx`/`toIdx` embed the source
fields named `from`/`to` (`from` is a Lean keyword); `element` is the
identity of the created SVG path element. -/
structure LineData where
  element : ℕ
  fromIdx : ℕ
  toIdx : ℕ
  state : ℕ
  pathData : PathData

/-- `PathManager` instance state: the enabled flag, the `connectionLines`
array, and a counter handing out fresh path-element identities. -/
structure PathManager where
  isEnabled : Bool
  connectionLines : List LineData
  nextElementId : ℕ

/-- The state advance of `togglePathState`'s switch (part_002 lines
245-257), including the default fallback to `TRANSPARENT`. -/
def nextPathState (s : ℕ) : ℕ :=
  if s = PATH_STATES_TRANSPARENT then PATH_STATES_PINK_SOLID
  else if s = PATH_STATES_PINK_SOLID then PATH_STATES_GREEN_SOLID
  else if s = PATH_STATES_GREEN_SOLID then PATH_STATES_TRANSPARENT
  else PATH_STATES_TRANSPARENT

/-- In-place update of the first line whose `element` matches, as done by
`togglePathState` via `find` followed by mutation. -/
def toggleLines : List LineData → ℕ → List LineData
  | [], _ => []
  | l :: ls, el =>
      if l.element = el then { l with state := nextPathState l.state } :: ls
      else l :: toggleLines ls el

/-- `togglePathState` (part_002 lines 240-260): a no-op when no line matches
the element; otherwise advance that line's persisted state one step.
`applyPathVisualState` only animates visual attributes. -/
def PathManager.togglePathState (pm : PathManager) (el : ℕ) : PathManager :=
  { pm with connectionLines := toggleLines pm.connectionLines el }

/-- Persisted state of the line `findLineData` (part_002 lines 360-362)
returns for an element id. -/
def stateOf (lines : List LineData) (el : ℕ) : Option ℕ :=
  (lines.find? fun l => l.element == el).map LineData.state

/-- Persisted state of the first line carrying a given `(from, to)` key. -/
def stateOfKey (lines : List LineData) (k : ℕ × ℕ) : Option ℕ :=
  (lines.find? fun l => (l.fromIdx, l.toIdx) == k).map LineData.state

/-- The `lineData` object built by `createSingleLine` (part_002 lines
153-183): positions via `MathUtils.getItemPosition(_, config.itemCount)`
(equal to the pure formula under the active configuration, theorem
`c7_position_cache_consistency`), a straight path for diagonal pairs, an
arc path otherwise, and initial state `TRANSPARENT`. -/
noncomputable def createSingleLineData (cfg : LayoutConfig) (elementId index1 index2 : ℕ) :
    LineData :=
  { element := elementId, fromIdx := index1, toIdx := index2,
    state := PATH_STATES_TRANSPARENT,
    pathData :=
      if isDiagonalPair cfg index1 index2 cfg.itemCount then
        createLinearPath (itemPositionFormula cfg index1 cfg.itemCount)
          (itemPositionFormula cfg index2 cfg.itemCount)
      else
        createArcPath cfg (itemPositionFormula cfg index1 cfg.itemCount)
          (itemPositionFormula cfg index2 cfg.itemCount) }

/-- `createSingleLine` (part_002 lines 138-188): `null` (no state change)
when disabled, otherwise append the new line to `connectionLines`. -/
noncomputable def PathManager.createSingleLine (pm : PathManager) (cfg : LayoutConfig)
    (index1 index2 : ℕ) : PathManager :=
  if pm.isEnabled = false then pm
  else
    { pm with
      connectionLines :=
        pm.connectionLines ++ [createSingleLineData cfg pm.nextElementId index1 index2],
      nextElementId := pm.nextElementId + 1 }

/-- `createConnectionLines` (part_002 lines 113-131): skip when disabled or
when the connection list is empty, otherwise `createSingleLine` per
connection in order. -/
noncomputable def PathManager.createConnectionLines (pm : PathManager) (cfg : LayoutConfig)
    (connections : List (ℕ × ℕ)) : PathManager :=
  if pm.isEnabled = false then pm
  else if connections.isEmpty then pm
  else connections.foldl (fun acc c => acc.createSingleLine cfg c.1 c.2) pm

/-- `clearConnections` (part_002 lines 378-385): remove the DOM nodes and
reset the array. -/
def PathManager.clearConnections (pm : PathManager) : PathManager :=
  { pm with connectionLines := [] }

/-- The `currentStates` map built at the top of `_rebuildAllPaths`
(part_002 lines 71-75): `Map.set` per line in order — later entries win —
keyed by the string `from-to` (injective on `ℕ` pairs, embedded as the
pair). -/
def savedStates (lines : List LineData) : ℕ × ℕ → Option ℕ :=
  lines.foldl (fun m l => fun k => if k = (l.fromIdx, l.toIdx) then some l.state else m k)
    (fun _ => none)

/-- The restore step at the bottom of `_rebuildAllPaths` (part_002 lines
95-101): set the snapshotted state when the key is present, else leave the
freshly created line untouched. -/
def restoreState (m : ℕ × ℕ → Option ℕ) (l : LineData) : LineData :=
  match m (l.fromIdx, l.toIdx) with
  | some s => { l with state := s }
  | none => l

/-- `_rebuildAllPaths` (part_002 lines 66-107): snapshot states, clear,
re-enumerate the complete graph at the active item count
(`GALLERY_CONFIG.itemCount` reads the responsive configuration through the
config proxy), recreate all lines, restore snapshotted states by key. -/
noncomputable def PathManager.rebuildAllPaths (pm : PathManager) (cfg : LayoutConfig) :
    PathManager :=
  if pm.isEnabled = false then pm
  else
    { pm.clearConnections.createConnectionLines cfg (pairsNat cfg.itemCount) with
      connectionLines :=
        (pm.clearConnections.createConnectionLines cfg
            (pairsNat cfg.itemCount)).connectionLines.map
          (restoreState (savedStates pm.connectionLines)) }

/-- Proof helper: the list of lines appended by folding `createSingleLine`
over a connection list, starting from a given fresh-id counter. -/
noncomputable def buildLines (cfg : LayoutConfig) (startId : ℕ) : List (ℕ × ℕ) → List LineData
  | [] => []
  | p :: ps => createSingleLineData cfg startId p.1 p.2 :: buildLines cfg (startId + 1) ps

/-- A `GREEN_SOLID` line on edge `(1, 3)` with element id 0, used as a
witness input (spec §8 scenario). -/
noncomputable def lineGreen13 : LineData :=
  { element := 0, fromIdx := 1, toIdx := 3, state := PATH_STATES_GREEN_SOLID,
    pathData := PathData.linear { x := 0, y := 0 } { x := 0, y := 0 } }

/-- A `TRANSPARENT` line on edge `(0, 1)` with element id 5, used as a
witness input for the toggle cycle. -/
noncomputable def lineDim01 : LineData :=
  { element := 5, fromIdx := 0, toIdx := 1, state := PATH_STATES_TRANSPARENT,
    pathData := PathData.linear { x := 0, y := 0 } { x := 0, y := 0 } }

/-- Concrete `PathManager` holding one persisted `GREEN_SOLID` line on edge
`(1, 3)`, used as a witness input (spec §8 scenario). -/
noncomputable def pmWitness : PathManager :=
  { isEnabled := true, connectionLines := [lineGreen13], nextElementId := 1 }

/-- Concrete `PathManager` holding one `TRANSPARENT` line with element id 5,
used as a witness input for the toggle cycle. -/
noncomputable def pmToggleWitness : PathManager :=
  { isEnabled := true, connectionLines := [lineDim01], nextElementId := 6 }

/-- Empty enabled `PathManager`, used as a witness input for rebuilds. -/
def pmEmpty : PathManager :=
  { isEnabled := true, connectionLines := [], nextElementId := 0 }

/-- Desktop-tier layout configuration with 4 items, used as a concrete even
item count for witnesses. -/
noncomputable def cfgSquare : LayoutConfig :=
  { centerX := 300, centerY := 300, radius := 250, itemSize := 100, itemCount := 4,
    arcHeightFactor := 0.3 }

/-! ## ResponsiveConfigManager (src/src/js/utils/dom-utils.js)

Viewport widths are embedded as `ℚ` (browser widths are finite decimals).
Subscribed resize callbacks are opaque identities (`ℕ`); an invocation is
recorded as the pair of the callback id and the breakpoint object it
received. -/

/-- One entry of `BREAKPOINTS` (dom-utils.js lines 339-365).  `min`/`max`
are the declared width bounds; `DESKTOP` has no `max` and `MOBILE` no
`min`. -/
structure Breakpoint where
  name : String
  min : Option ℚ
  max : Option ℚ
  container : ℚ
  center : ℚ
  radius : ℚ
  itemSize : ℚ
deriving DecidableEq

def BREAKPOINTS_DESKTOP : Breakpoint :=
  { name := "desktop", min := some 769, max := none,
    container := 600, center := 300, radius := 250, itemSize := 100 }

def BREAKPOINTS_TABLET : Breakpoint :=
  { name := "tablet", min := some 481, max := some 768,
    container := 400, center := 200, radius := 150, itemSize := 80 }

def BREAKPOINTS_MOBILE : Breakpoint :=
  { name := "mobile", min := none, max := some 480,
    container := 300, center := 150, radius := 100, itemSize := 60 }

/-- `getBreakpoint` (dom-utils.js lines 389-399) applied to a width
(`window.innerWidth` at call time): `width >= DESKTOP.min (= 769)`, else
`width >= TABLET.min (= 481) && width <= TABLET.max (= 768)`, else
mobile. -/
def getBreakpoint (width : ℚ) : Breakpoint :=
  if width ≥ 769 then BREAKPOINTS_DESKTOP
  else if width ≥ 481 ∧ width ≤ 768 then BREAKPOINTS_TABLET
  else BREAKPOINTS_MOBILE

/-- Whether a width lies in a tier's declared range: `min ≤ w` when a `min`
is declared and `w ≤ max` when a `max` is declared. -/
def inRange (bp : Breakpoint) (w : ℚ) : Bool :=
  (match bp.min with
   | some m => decide (m ≤ w)
   | none => true) &&
  (match bp.max with
   | some m => decide (w ≤ m)
   | none => true)

/-- The `ResponsiveConfigManager` static state the resize listener touches:
`_currentBreakpoint` and the registered `_resizeCallbacks` in registration
order.  The `_cache` of derived configs is memoization state that the
notification path only clears; no claim observes its contents. -/
structure RCMState where
  currentBreakpoint : Option Breakpoint
  resizeCallbacks : List ℕ

/-- The notify branch of the debounce-timer callback (dom-utils.js lines
547-558): remember the new breakpoint (after `clearCache`) and invoke every
registered callback in registration order with the new breakpoint. -/
def fireCallbacks (newBreakpoint : Breakpoint) (st : RCMState) :
    RCMState × List (ℕ × Breakpoint) :=
  ({ st with currentBreakpoint := some newBreakpoint },
   st.resizeCallbacks.map fun c => (c, newBreakpoint))

/-- The debounce-timer callback (dom-utils.js lines 543-560): recompute the
breakpoint for the width at expiry; notify only when there is no previously
recorded breakpoint or the name changed. -/
def debounceTimerFire (width : ℚ) (st : RCMState) : RCMState × List (ℕ × Breakpoint) :=
  match st.currentBreakpoint with
  | none => fireCallbacks (getBreakpoint width) st
  | some cur =>
      if (getBreakpoint width).name ≠ cur.name then fireCallbacks (getBreakpoint width) st
      else (st, [])

/-- A burst of resize events inside one debounce window (dom-utils.js lines
536-561): each event clears the pending timer and arms a new 300ms one, so
only the timer armed by the last event fires, and `getBreakpoint` reads the
viewport width current at expiry — the last event's width.  An empty burst
fires nothing. -/
def resizeBurst (widths : List ℚ) (st : RCMState) : RCMState × List (ℕ × Breakpoint) :=
  match widths.getLast? with
  | none => (st, [])
  | some w => debounceTimerFire w st

/-- Concrete manager state with two subscribers, previously notified of the
desktop tier; a witness input. -/
def rcmWitness : RCMState :=
  { currentBreakpoint := some BREAKPOINTS_DESKTOP, resizeCallbacks := [10, 11] }

end GraphViewer

namespace GraphViewer

/-! ## Lemmas about pairsNat and the graph -/

theorem mem_pairsNat (n : ℕ) (p : ℕ × ℕ) : p ∈ pairsNat n ↔ p.1 < p.2 ∧ p.2 < n := by
  obtain ⟨a, b⟩ := p
  unfold pairsNat
  simp only [List.mem_flatMap, List.mem_map, List.mem_range, List.mem_range'_1, Prod.mk.injEq]
  constructor
  · rintro ⟨i, hi, j, hj, rfl, rfl⟩
    omega
  · rintro ⟨hab, hbn⟩
    exact ⟨a, by omega, b, by omega, rfl, rfl⟩

theorem pairsNat_nodup (n : ℕ) : (pairsNat n).Nodup := by
  unfold pairsNat
  rw [List.nodup_flatMap]
  refine ⟨fun i _ => ?_, ?_⟩
  · exact List.Nodup.map (fun x y h => by simpa using h) (List.nodup_range' _ _)
  · refine (List.nodup_range n).pairwise_of_forall_ne fun i hi j hj hij => ?_
    intro x hx hx'
    simp only [List.mem_map] at hx hx'
    obtain ⟨a, _, rfl⟩ := hx
    obtain ⟨b, _, h⟩ := hx'
    exact hij (by simpa using congrArg Prod.fst h.symm)

theorem sum_range_map (f : ℕ → ℕ) (n : ℕ) :
    ((List.range n).map f).sum = ∑ i in Finset.range n, f i := by
  induction n with
  | zero => simp
  | succ n ih => rw [List.range_succ, Finset.sum_range_succ, List.map_append, List.sum_append, ih]; simp

theorem pairsNat_length (n : ℕ) : (pairsNat n).length = n * (n - 1) / 2 := by
  unfold pairsNat
  rw [List.length_flatMap]
  have h1 : (List.map (List.length ∘ fun i =>
        List.map (fun j => (i, j)) (List.range' (i + 1) (n - (i + 1)))) (List.range n))
      = List.map (fun i => n - (i + 1)) (List.range n) := by
    apply List.map_congr_left
    intro i _
    simp [List.length_range']
  rw [h1, sum_range_map]
  have h2 : ∑ i in Finset.range n, (n - (i + 1)) = ∑ i in Finset.range n, (n - 1 - i) := by
    apply Finset.sum_congr rfl
    intro i _
    omega
  rw [h2, Finset.sum_range_reflect (fun i => i) n]
  have h3 := Finset.sum_range_id_mul_two n
  omega

theorem addEdge_imageCount (g : GraphManager) (i j : ℤ) :
    (g.addEdge i j).imageCount = g.imageCount := by
  unfold GraphManager.addEdge
  split <;> rfl

theorem addEdge_adj (g : GraphManager) (i j a b : ℤ) :
    (g.addEdge i j).adjacencyMatrix a b =
      if g.isValidEdge i j ∧ ((a = i ∧ b = j) ∨ (a = j ∧ b = i)) then 1
      else g.adjacencyMatrix a b := by
  unfold GraphManager.addEdge
  by_cases hv : g.isValidEdge i j
  · simp only [if_pos hv, true_and, hv]
    by_cases h1 : a = j ∧ b = i
    · simp [h1]
    · by_cases h2 : a = i ∧ b = j
      · simp [h1, h2]
      · simp [h1, h2]
  · simp [hv]

theorem addEdges_imageCount (l : List (ℕ × ℕ)) (g : GraphManager) :
    (g.addEdges l).imageCount = g.imageCount := by
  induction l generalizing g with
  | nil => rfl
  | cons p l ih =>
      show ((g.addEdge p.1 p.2).addEdges l).imageCount = g.imageCount
      rw [ih, addEdge_imageCount]

theorem isValidEdge_natCast (g : GraphManager) (p : ℕ × ℕ) :
    g.isValidEdge (p.1 : ℤ) (p.2 : ℤ) ↔ validPair g.imageCount p := by
  unfold GraphManager.isValidEdge validPair
  constructor
  · rintro ⟨h1, _, _, h4, h5⟩
    exact ⟨fun h => h1 (by exact_mod_cast h), by exact_mod_cast h4, by exact_mod_cast h5⟩
  · rintro ⟨h1, h2, h3⟩
    exact ⟨fun h => h1 (by exact_mod_cast h), Int.ofNat_nonneg _, Int.ofNat_nonneg _,
      by exact_mod_cast h2, by exact_mod_cast h3⟩

theorem addEdges_adj (l : List (ℕ × ℕ)) (g : GraphManager) (a b : ℤ) :
    (g.addEdges l).adjacencyMatrix a b =
      if ∃ p ∈ l, validPair g.imageCount p ∧
          ((a = (p.1 : ℤ) ∧ b = (p.2 : ℤ)) ∨ (a = (p.2 : ℤ) ∧ b = (p.1 : ℤ))) then 1
      else g.adjacencyMatrix a b := by
  induction l generalizing g with
  | nil => simp [GraphManager.addEdges]
  | cons q l ih =>
      have hstep : g.addEdges (q :: l) = (g.addEdge q.1 q.2).addEdges l := rfl
      rw [hstep, ih, addEdge_imageCount, addEdge_adj]
      by_cases hl : ∃ p ∈ l, validPair g.imageCount p ∧
          ((a = (p.1 : ℤ) ∧ b = (p.2 : ℤ)) ∨ (a = (p.2 : ℤ) ∧ b = (p.1 : ℤ)))
      · rw [if_pos hl, if_pos]
        obtain ⟨p, hp, hrest⟩ := hl
        exact ⟨p, List.mem_cons_of_mem _ hp, hrest⟩
      · rw [if_neg hl]
        by_cases hq : g.isValidEdge (q.1 : ℤ) (q.2 : ℤ) ∧
            ((a = (q.1 : ℤ) ∧ b = (q.2 : ℤ)) ∨ (a = (q.2 : ℤ) ∧ b = (q.1 : ℤ)))
        · rw [if_pos hq,
            if_pos ⟨q, List.mem_cons_self _ _, (isValidEdge_natCast g q).mp hq.1, hq.2⟩]
        · rw [if_neg hq, if_neg]
          rintro ⟨p, hp, hvp, hm⟩
          rcases List.mem_cons.mp hp with rfl | hp'
          · exact hq ⟨(isValidEdge_natCast g p).mpr hvp, hm⟩
          · exact hl ⟨p, hp', hvp, hm⟩

theorem zeroDiagonal_imageCount (g : GraphManager) :
    (g.zeroDiagonal).imageCount = g.imageCount := by
  unfold GraphManager.zeroDiagonal
  generalize List.range g.imageCount = l
  induction l generalizing g with
  | nil => rfl
  | cons i l ih => exact ih _

theorem zeroDiagonal_adj_zero (g : GraphManager) (h : ∀ a b, g.adjacencyMatrix a b = 0)
    (a b : ℤ) : (g.zeroDiagonal).adjacencyMatrix a b = 0 := by
  unfold GraphManager.zeroDiagonal
  generalize List.range g.imageCount = l
  induction l generalizing g with
  | nil => exact h a b
  | cons i l ih =>
      refine ih _ fun x y => ?_
      dsimp only
      split
      · rfl
      · exact h x y

theorem mkGraphManager_imageCount (n : ℕ) : (mkGraphManager n).imageCount = n := by
  unfold mkGraphManager GraphManager.setupCompleteGraph
  rw [addEdges_imageCount, zeroDiagonal_imageCount]

theorem mkGraphManager_adj (n : ℕ) (a b : ℤ) :
    (mkGraphManager n).adjacencyMatrix a b =
      if a ≠ b ∧ 0 ≤ a ∧ 0 ≤ b ∧ a < (n : ℤ) ∧ b < (n : ℤ) then 1 else 0 := by
  unfold mkGraphManager GraphManager.setupCompleteGraph
  rw [addEdges_adj, zeroDiagonal_imageCount]
  have hzero : ∀ x y, (GraphManager.zeroDiagonal
      { imageCount := n, adjacencyMatrix := initializeMatrix }).adjacencyMatrix x y = 0 :=
    zeroDiagonal_adj_zero _ (fun _ _ => rfl)
  rw [hzero a b]
  have hiff : (∃ p ∈ pairsNat n, validPair n p ∧
      ((a = (p.1 : ℤ) ∧ b = (p.2 : ℤ)) ∨ (a = (p.2 : ℤ) ∧ b = (p.1 : ℤ)))) ↔
      (a ≠ b ∧ 0 ≤ a ∧ 0 ≤ b ∧ a < (n : ℤ) ∧ b < (n : ℤ)) := by
    constructor
    · rintro ⟨p, hp, hvalid, hmatch⟩
      have hlt := (mem_pairsNat n p).mp hp
      obtain ⟨hv1, hv2, hv3⟩ := hvalid
      rcases hmatch with ⟨rfl, rfl⟩ | ⟨rfl, rfl⟩ <;>
        exact ⟨by omega, by omega, by omega, by omega, by omega⟩
    · rintro ⟨hne, ha, hb, han, hbn⟩
      by_cases hab : a < b
      · refine ⟨(a.toNat, b.toNat), ?_, ?_,
          Or.inl ⟨(Int.toNat_of_nonneg ha).symm, (Int.toNat_of_nonneg hb).symm⟩⟩
        · rw [mem_pairsNat]
          exact ⟨by omega, by omega⟩
        · exact ⟨by omega, by omega, by omega⟩
      · have hba : b < a := by omega
        refine ⟨(b.toNat, a.toNat), ?_, ?_,
          Or.inr ⟨(Int.toNat_of_nonneg ha).symm, (Int.toNat_of_nonneg hb).symm⟩⟩
        · rw [mem_pairsNat]
          exact ⟨by omega, by omega⟩
        · exact ⟨by omega, by omega, by omega⟩
  by_cases hcond : a ≠ b ∧ 0 ≤ a ∧ 0 ≤ b ∧ a < (n : ℤ) ∧ b < (n : ℤ)
  · rw [if_pos (hiff.mpr hcond), if_pos hcond]
  · rw [if_neg (fun h => hcond (hiff.mp h)), if_neg hcond]

theorem flatMap_congr_mem {α β : Type} {l : List α} {f g : α → List β}
    (h : ∀ a ∈ l, f a = g a) : l.flatMap f = l.flatMap g := by
  induction l with
  | nil => rfl
  | cons a l ih =>
      simp only [List.flatMap_cons, h a (List.mem_cons_self a l)]
      rw [ih fun x hx => h x (List.mem_cons_of_mem a hx)]

theorem filterMap_eq_map_of {α β : Type} {l : List α} {f : α → Option β} {g : α → β}
    (h : ∀ a ∈ l, f a = some (g a)) : l.filterMap f = l.map g := by
  induction l with
  | nil => rfl
  | cons a l ih =>
      rw [List.filterMap_cons, h a (List.mem_cons_self a l), List.map_cons,
        ih fun x hx => h x (List.mem_cons_of_mem a hx)]

theorem getConnections_mk (n : ℕ) : (mkGraphManager n).getConnections = pairsNat n := by
  unfold GraphManager.getConnections pairsNat
  rw [mkGraphManager_imageCount]
  apply flatMap_congr_mem
  intro i hi
  apply filterMap_eq_map_of
  intro j hj
  have hi' : i < n := List.mem_range.mp hi
  have hj' := List.mem_range'_1.mp hj
  rw [mkGraphManager_adj]
  have hP : (i : ℤ) ≠ (j : ℤ) ∧ 0 ≤ (i : ℤ) ∧ 0 ≤ (j : ℤ) ∧ (i : ℤ) < (n : ℤ) ∧ (j : ℤ) < (n : ℤ) := by
    refine ⟨by omega, by omega, by omega, by omega, by omega⟩
  rw [if_pos hP]
  simp

/-- C1: for every item count N, after the ConnectionGraph is built as the
complete graph over `[0,N)` via `setupCompleteGraph`, `getConnections()`
returns exactly `N*(N-1)/2` pairs, every returned pair `(from, to)` satisfies
`from < to < N`, and no unordered pair appears more than once. -/
theorem c1_complete_graph_connections (n : ℕ) :
    ((mkGraphManager n).getConnections).length = n * (n - 1) / 2 ∧
    (∀ p ∈ (mkGraphManager n).getConnections, p.1 < p.2 ∧ p.2 < n) ∧
    ((mkGraphManager n).getConnections).Nodup ∧
    (∀ a b : ℕ, (a, b) ∈ (mkGraphManager n).getConnections →
      (b, a) ∉ (mkGraphManager n).getConnections) := by
  rw [getConnections_mk]
  refine ⟨pairsNat_length n, fun p hp => (mem_pairsNat n p).mp hp, pairsNat_nodup n, ?_⟩
  intro a b hab hba
  have h1 := (mem_pairsNat n (a, b)).mp hab
  have h2 := (mem_pairsNat n (b, a)).mp hba
  dsimp at h1 h2
  omega

/-- Witness for C1 at N = 4: 6 connections, no duplicates. -/
theorem c1_complete_graph_connections_witness :
    ((mkGraphManager 4).getConnections).length = 6 ∧
    ((mkGraphManager 4).getConnections).Nodup := by
  have h := c1_complete_graph_connections 4
  exact ⟨by simpa using h.1, h.2.2.1⟩

/-- C10: for any graph state and any pair of indices that is self-looping or
out of range, `addEdge` and `removeEdge` are silent no-ops leaving the whole
manager (in particular the adjacency matrix) unchanged, and `areConnected`
returns `false`. -/
theorem c10_invalid_edge_ops_noop (g : GraphManager) (i j : ℤ)
    (h : i = j ∨ i < 0 ∨ j < 0 ∨ (g.imageCount : ℤ) ≤ i ∨ (g.imageCount : ℤ) ≤ j) :
    g.addEdge i j = g ∧ g.removeEdge i j = g ∧ g.areConnected i j = false := by
  have hv : ¬ g.isValidEdge i j := by
    unfold GraphManager.isValidEdge
    rintro ⟨h1, h2, h3, h4, h5⟩
    rcases h with rfl | h | h | h | h
    · exact h1 rfl
    all_goals omega
  refine ⟨?_, ?_, ?_⟩
  · unfold GraphManager.addEdge
    rw [if_neg hv]
  · unfold GraphManager.removeEdge
    rw [if_neg hv]
  · unfold GraphManager.areConnected
    rw [if_neg hv]

/-- Witness for C10 at a self-loop on the 3-node complete graph. -/
theorem c10_invalid_edge_ops_noop_witness :
    (mkGraphManager 3).addEdge 3 3 = mkGraphManager 3 ∧
    (mkGraphManager 3).removeEdge 3 3 = mkGraphManager 3 ∧
    (mkGraphManager 3).areConnected 3 3 = false :=
  c10_invalid_edge_ops_noop (mkGraphManager 3) 3 3 (Or.inl rfl)

/-! ## Lemmas about the MathUtils cache -/

theorem resolveItemCount_idem (cfg : LayoutConfig) (n : ℕ) :
    resolveItemCount cfg (resolveItemCount cfg n) = resolveItemCount cfg n := by
  unfold resolveItemCount
  by_cases h : n = 0
  · by_cases h2 : cfg.itemCount = 0 <;> simp [h, h2]
  · simp [h]

theorem formula_fingerprint_congr (cfg cfg' : LayoutConfig)
    (h : configFingerprint cfg = configFingerprint cfg') (index : ℤ) (itemCount : ℕ) :
    itemPositionFormula cfg index itemCount = itemPositionFormula cfg' index itemCount ∧
    itemElementPositionFormula cfg index itemCount =
      itemElementPositionFormula cfg' index itemCount := by
  unfold configFingerprint at h
  simp only [Prod.mk.injEq] at h
  obtain ⟨h1, h2, h3, h4⟩ := h
  unfold itemElementPositionFormula itemPositionFormula
  rw [h1, h2, h3, h4]
  exact ⟨rfl, rfl⟩

theorem clearCacheIfNeeded_lastConfig (cfg : LayoutConfig) (st : MathUtilsState) :
    (clearCacheIfNeeded cfg st).lastConfig = some (configFingerprint cfg) := by
  unfold clearCacheIfNeeded
  split
  · assumption
  · rfl

theorem clearCacheIfNeeded_consistent (cfg : LayoutConfig) (st : MathUtilsState)
    (h : CacheConsistent st) : CacheConsistent (clearCacheIfNeeded cfg st) := by
  unfold clearCacheIfNeeded
  split
  · exact h
  · intro isElem index itemCount p hp
    exact absurd hp (by simp)

theorem getItemPosition_spec (cfg : LayoutConfig) (st : MathUtilsState) (index : ℤ)
    (totalItems : ℕ) (h : CacheConsistent st) :
    (getItemPosition cfg st index totalItems).1 =
      itemPositionFormula cfg index (resolveItemCount cfg totalItems) ∧
    CacheConsistent (getItemPosition cfg st index totalItems).2 := by
  have h1 := clearCacheIfNeeded_consistent cfg st h
  have h2 := clearCacheIfNeeded_lastConfig cfg st
  unfold getItemPosition
  split
  · next p hc =>
      refine ⟨?_, h1⟩
      have hval := h1 false index (resolveItemCount cfg totalItems) p hc cfg h2
      simpa using hval
  · next hc =>
      refine ⟨rfl, ?_⟩
      intro isElem index' itemCount' q hq cfg' hcfg'
      dsimp only at hq hcfg'
      rw [h2] at hcfg'
      have hfp : configFingerprint cfg = configFingerprint cfg' := by
        injection hcfg'
      by_cases hk : ((isElem, index', itemCount') : Bool × ℤ × ℕ) =
          (false, index, resolveItemCount cfg totalItems)
      · rw [if_pos hk] at hq
        simp only [Prod.mk.injEq] at hk
        obtain ⟨hb, hi', hn⟩ := hk
        injection hq with hq'
        rw [hb, hi', hn, if_neg Bool.false_ne_true, ← hq',
          ← (formula_fingerprint_congr cfg cfg' hfp index (resolveItemCount cfg totalItems)).1]
      · rw [if_neg hk] at hq
        exact h1 isElem index' itemCount' q hq cfg' (by rw [h2, hfp])

theorem getItemPosition_lastConfig (cfg : LayoutConfig) (st : MathUtilsState) (index : ℤ)
    (totalItems : ℕ) :
    (getItemPosition cfg st index totalItems).2.lastConfig = some (configFingerprint cfg) := by
  unfold getItemPosition
  split
  · exact clearCacheIfNeeded_lastConfig cfg st
  · exact clearCacheIfNeeded_lastConfig cfg st

theorem getItemElementPosition_spec (cfg : LayoutConfig) (st : MathUtilsState) (index : ℤ)
    (totalItems : ℕ) (h : CacheConsistent st) :
    (getItemElementPosition cfg st index totalItems).1 =
      itemElementPositionFormula cfg index (resolveItemCount cfg totalItems) ∧
    CacheConsistent (getItemElementPosition cfg st index totalItems).2 := by
  have h1 := clearCacheIfNeeded_consistent cfg st h
  have h2 := clearCacheIfNeeded_lastConfig cfg st
  have hinner := getItemPosition_spec cfg (clearCacheIfNeeded cfg st) index
    (resolveItemCount cfg totalItems) h1
  have hinner1 := hinner.1
  rw [resolveItemCount_idem] at hinner1
  have hlast := getItemPosition_lastConfig cfg (clearCacheIfNeeded cfg st) index
    (resolveItemCount cfg totalItems)
  unfold getItemElementPosition
  split
  · next p hc =>
      refine ⟨?_, h1⟩
      have hval := h1 true index (resolveItemCount cfg totalItems) p hc cfg h2
      simpa using hval
  · next hc =>
      constructor
      · rw [hinner1]
        rfl
      · intro isElem index' itemCount' q hq cfg' hcfg'
        unfold insertElem at hq hcfg'
        dsimp only at hq hcfg'
        rw [hlast] at hcfg'
        have hfp : configFingerprint cfg = configFingerprint cfg' := by
          injection hcfg'
        by_cases hk : ((isElem, index', itemCount') : Bool × ℤ × ℕ) =
            (true, index, resolveItemCount cfg totalItems)
        · rw [if_pos hk] at hq
          simp only [Prod.mk.injEq] at hk
          obtain ⟨hb, hi', hn⟩ := hk
          injection hq with hq'
          rw [hb, hi', hn, if_pos rfl, ← hq', hinner1]
          have hdef : elemPointOf cfg
              (itemPositionFormula cfg index (resolveItemCount cfg totalItems)) =
              itemElementPositionFormula cfg index (resolveItemCount cfg totalItems) := rfl
          rw [hdef,
            (formula_fingerprint_congr cfg cfg' hfp index (resolveItemCount cfg totalItems)).2]
        · rw [if_neg hk] at hq
          exact hinner.2 isElem index' itemCount' q hq cfg' (by rw [hlast, hfp])

theorem initialMathUtilsState_consistent : CacheConsistent initialMathUtilsState := by
  intro isElem index itemCount p hp
  exact absurd hp (by simp [initialMathUtilsState])

theorem reachable_cacheConsistent (st : MathUtilsState) (h : ReachableMU st) :
    CacheConsistent st := by
  induction h with
  | init => exact initialMathUtilsState_consistent
  | pos cfg index totalItems st _ ih => exact (getItemPosition_spec cfg st index totalItems ih).2
  | elem cfg index totalItems st _ ih =>
      exact (getItemElementPosition_spec cfg st index totalItems ih).2
  | clear st _ _ =>
      intro isElem index itemCount p hp
      exact absurd hp (by simp [clearCache])

/-- C7: in every state reachable by position queries interleaved with
configuration changes, `getItemPosition` / `getItemElementPosition` return
exactly the formula value under the currently active configuration, and when
the fingerprint differs from the one the cache was filled under the whole
cache is cleared before recomputation, so a position cached under a previous
configuration is never returned under the new one. -/
theorem c7_position_cache_consistency (st : MathUtilsState) (h : ReachableMU st)
    (cfg : LayoutConfig) (index : ℤ) (totalItems : ℕ) :
    (getItemPosition cfg st index totalItems).1 =
      itemPositionFormula cfg index (resolveItemCount cfg totalItems) ∧
    (getItemElementPosition cfg st index totalItems).1 =
      itemElementPositionFormula cfg index (resolveItemCount cfg totalItems) ∧
    (st.lastConfig ≠ some (configFingerprint cfg) →
      ∀ k, (clearCacheIfNeeded cfg st).positionCache k = none) := by
  have hc := reachable_cacheConsistent st h
  refine ⟨(getItemPosition_spec cfg st index totalItems hc).1,
    (getItemElementPosition_spec cfg st index totalItems hc).1, ?_⟩
  intro hne k
  unfold clearCacheIfNeeded
  rw [if_neg hne]

/-- Witness for C7: first queries from the initial state under the desktop
configuration. -/
theorem c7_position_cache_consistency_witness :
    (getItemPosition cfgDesktop initialMathUtilsState 0 8).1 =
      itemPositionFormula cfgDesktop 0 8 ∧
    (getItemElementPosition cfgDesktop initialMathUtilsState 0 8).1 =
      itemElementPositionFormula cfgDesktop 0 8 := by
  have h := c7_position_cache_consistency initialMathUtilsState ReachableMU.init cfgDesktop 0 8
  have hres : resolveItemCount cfgDesktop 8 = 8 := rfl
  rw [hres] at h
  exact ⟨h.1, h.2.1⟩

/-- C2 (amended): `getItemPosition` performs no index validation: for every
index, in or out of `[0, totalItems)`, it returns
`center + radius·(cos θ, sin θ)` with `θ = 2π·index/totalItems`, and never
signals an InvalidIndex error; on indices inside `[0, totalItems)` it agrees
with the spec-modelled `circlePosition`. -/
theorem c2_item_position_no_validation (cfg : LayoutConfig) (st : MathUtilsState)
    (h : CacheConsistent st) (index : ℤ) (totalItems : ℕ) (hpos : 0 < totalItems) :
    (getItemPosition cfg st index totalItems).1 = itemPositionFormula cfg index totalItems ∧
    (0 ≤ index → index < (totalItems : ℤ) →
      specCirclePosition cfg index totalItems =
        Except.ok ((getItemPosition cfg st index totalItems).1)) := by
  have hres : resolveItemCount cfg totalItems = totalItems := by
    unfold resolveItemCount
    rw [if_neg (by omega)]
  have h1 := (getItemPosition_spec cfg st index totalItems h).1
  rw [hres] at h1
  refine ⟨h1, fun hge hlt => ?_⟩
  unfold specCirclePosition
  rw [if_pos ⟨hge, hlt⟩, h1]

/-- Witness for C2 (amended) at the out-of-range index -5 with 8 items. -/
theorem c2_item_position_no_validation_witness :
    (getItemPosition cfgDesktop initialMathUtilsState (-5) 8).1 =
      itemPositionFormula cfgDesktop (-5) 8 :=
  (c2_item_position_no_validation cfgDesktop initialMathUtilsState
    initialMathUtilsState_consistent (-5) 8 (by norm_num)).1

/-- C2 counterexample: at index 8 with 8 items (outside `[0,8)`), the
spec-modelled `circlePosition` fails with InvalidIndex, but the code's
`getItemPosition` returns the normal formula point instead of failing. -/
theorem c2_item_position_counterexample :
    specCirclePosition cfgDesktop 8 8 = Except.error GeometryError.invalidIndex ∧
    (getItemPosition cfgDesktop initialMathUtilsState 8 8).1 =
      itemPositionFormula cfgDesktop 8 8 := by
  constructor
  · unfold specCirclePosition
    rw [if_neg (by omega)]
  · have h1 := (getItemPosition_spec cfgDesktop initialMathUtilsState 8 8
      initialMathUtilsState_consistent).1
    rwa [(rfl : resolveItemCount cfgDesktop 8 = 8)] at h1

/-- C8: `getArcControlPoint` is total and never divides by zero: if the
midpoint of the two points coincides with the configured centre it returns
the midpoint itself with no displacement; otherwise it returns the midpoint
displaced by `radius * factor` along the unit vector from the midpoint
toward the centre. -/
theorem c8_arc_control_point_total (cfg : LayoutConfig) (point1 point2 : Point)
    (hf : Option ℝ) :
    (getMidpoint point1 point2 = { x := cfg.centerX, y := cfg.centerY } →
      getArcControlPoint cfg point1 point2 hf = getMidpoint point1 point2) ∧
    (getMidpoint point1 point2 ≠ { x := cfg.centerX, y := cfg.centerY } →
      ∀ vx vy L : ℝ,
        vx = cfg.centerX - (getMidpoint point1 point2).x →
        vy = cfg.centerY - (getMidpoint point1 point2).y →
        L = Real.sqrt (vx * vx + vy * vy) →
        L ≠ 0 ∧
        Real.sqrt ((vx / L) * (vx / L) + (vy / L) * (vy / L)) = 1 ∧
        getArcControlPoint cfg point1 point2 hf =
          { x := (getMidpoint point1 point2).x + (vx / L) * (cfg.radius * arcFactorOf cfg hf),
            y := (getMidpoint point1 point2).y + (vy / L) * (cfg.radius * arcFactorOf cfg hf) }) := by
  constructor
  · intro hmid
    have hx : (getMidpoint point1 point2).x = cfg.centerX := by rw [hmid]
    have hy : (getMidpoint point1 point2).y = cfg.centerY := by rw [hmid]
    unfold getArcControlPoint normalizeVector
    rw [hx, hy]
    simp only [sub_self, mul_zero, zero_mul, add_zero, zero_add]
    rw [if_pos (by simp [Real.sqrt_zero])]
    simp only [getMidpoint, Point.mk.injEq]
    constructor
    · simpa [getMidpoint] using hx.symm
    · simpa [getMidpoint] using hy.symm
  · intro hmid vx vy L hvx hvy hL
    have hne : vx ≠ 0 ∨ vy ≠ 0 := by
      by_contra hcon
      push_neg at hcon
      apply hmid
      have hx : (getMidpoint point1 point2).x = cfg.centerX := by
        have := hcon.1
        rw [hvx] at this
        linarith
      have hy : (getMidpoint point1 point2).y = cfg.centerY := by
        have := hcon.2
        rw [hvy] at this
        linarith
      cases hmp : getMidpoint point1 point2
      simp only [hmp] at hx hy
      simp [hx, hy]
    have hsum : 0 < vx * vx + vy * vy := by
      rcases hne with h | h
      · have h1 : 0 < vx * vx := mul_self_pos.mpr h
        nlinarith [mul_self_nonneg vy]
      · have h1 : 0 < vy * vy := mul_self_pos.mpr h
        nlinarith [mul_self_nonneg vx]
    have hLpos : 0 < L := by
      rw [hL]
      exact Real.sqrt_pos.mpr hsum
    have hLne : L ≠ 0 := ne_of_gt hLpos
    have hLsq : L * L = vx * vx + vy * vy := by
      rw [hL]
      exact Real.mul_self_sqrt (le_of_lt hsum)
    refine ⟨hLne, ?_, ?_⟩
    · have : (vx / L) * (vx / L) + (vy / L) * (vy / L) = 1 := by
        field_simp
        linarith [hLsq]
      rw [this, Real.sqrt_one]
    · unfold getArcControlPoint normalizeVector
      rw [← hvx, ← hvy, ← hL]
      rw [if_neg hLne]

/-- Witness for C8: the degenerate case, a chord of the desktop circle whose
midpoint is exactly the centre. -/
theorem c8_arc_control_point_total_witness :
    getArcControlPoint cfgDesktop { x := 0, y := 0 } { x := 600, y := 600 } none =
      getMidpoint { x := 0, y := 0 } { x := 600, y := 600 } := by
  apply (c8_arc_control_point_total cfgDesktop { x := 0, y := 0 } { x := 600, y := 600 } none).1
  show getMidpoint { x := 0, y := 0 } { x := 600, y := 600 } =
    { x := cfgDesktop.centerX, y := cfgDesktop.centerY }
  unfold getMidpoint cfgDesktop
  norm_num

/-! ## Lemmas about PathManager -/

theorem stateOf_toggleLines_self (lines : List LineData) (el : ℕ) :
    stateOf (toggleLines lines el) el = (stateOf lines el).map nextPathState := by
  induction lines with
  | nil => rfl
  | cons l ls ih =>
      by_cases h : l.element = el
      · simp only [toggleLines, if_pos h]
        unfold stateOf
        rw [List.find?_cons_of_pos _ (by simpa using h), List.find?_cons_of_pos _ (by simpa using h)]
        rfl
      · simp only [toggleLines, if_neg h]
        unfold stateOf
        rw [List.find?_cons_of_neg _ (by simpa using h), List.find?_cons_of_neg _ (by simpa using h)]
        simpa [stateOf] using ih

theorem stateOf_toggleLines_other (lines : List LineData) (el e : ℕ) (h : e ≠ el) :
    stateOf (toggleLines lines el) e = stateOf lines e := by
  induction lines with
  | nil => rfl
  | cons l ls ih =>
      by_cases hl : l.element = el
      · have hne : ¬ l.element = e := by rw [hl]; exact fun hh => h hh.symm
        simp only [toggleLines, if_pos hl]
        unfold stateOf
        rw [List.find?_cons_of_neg _ (by simpa using hne), List.find?_cons_of_neg _ (by simpa using hne)]
      · simp only [toggleLines, if_neg hl]
        by_cases he : l.element = e
        · unfold stateOf
          rw [List.find?_cons_of_pos _ (by simpa using he), List.find?_cons_of_pos _ (by simpa using he)]
        · unfold stateOf
          rw [List.find?_cons_of_neg _ (by simpa using he), List.find?_cons_of_neg _ (by simpa using he)]
          simpa [stateOf] using ih

/-- C3: in every reachable `PathManager` state (persisted states always lie
in `{PINK_SOLID, GREEN_SOLID, TRANSPARENT} = {0,1,2}`: lines are created
`TRANSPARENT`, toggling and restoring stay inside the set — hence the
hypothesis `s < 3`), one `togglePathState` advances exactly the targeted
edge one step along the cycle `TRANSPARENT → PINK_SOLID → GREEN_SOLID →
TRANSPARENT`, leaves every other edge untouched, turns `TRANSPARENT` into
`PINK_SOLID` (never back to `TRANSPARENT`), and three consecutive toggles
restore the original state. -/
theorem c3_toggle_cycle (pm : PathManager) (el : ℕ) (s : ℕ)
    (hs : stateOf pm.connectionLines el = some s) (hrange : s < 3) :
    stateOf (pm.togglePathState el).connectionLines el = some (nextPathState s) ∧
    (nextPathState PATH_STATES_TRANSPARENT = PATH_STATES_PINK_SOLID ∧
     nextPathState PATH_STATES_PINK_SOLID = PATH_STATES_GREEN_SOLID ∧
     nextPathState PATH_STATES_GREEN_SOLID = PATH_STATES_TRANSPARENT) ∧
    (∀ e : ℕ, e ≠ el →
      stateOf (pm.togglePathState el).connectionLines e = stateOf pm.connectionLines e) ∧
    stateOf (((pm.togglePathState el).togglePathState el).togglePathState el).connectionLines el
      = some s := by
  unfold PathManager.togglePathState
  dsimp only
  refine ⟨?_, ⟨rfl, rfl, rfl⟩, ?_, ?_⟩
  · rw [stateOf_toggleLines_self, hs]
    rfl
  · intro e he
    exact stateOf_toggleLines_other _ _ _ he
  · rw [stateOf_toggleLines_self, stateOf_toggleLines_self, stateOf_toggleLines_self, hs]
    have hcyc : nextPathState (nextPathState (nextPathState s)) = s := by
      interval_cases s <;> rfl
    simp [hcyc]

/-- Witness for C3: one toggle of a `TRANSPARENT` line yields `PINK_SOLID`,
three toggles return it to `TRANSPARENT`. -/
theorem c3_toggle_cycle_witness :
    stateOf (pmToggleWitness.togglePathState 5).connectionLines 5 =
      some PATH_STATES_PINK_SOLID ∧
    stateOf
      (((pmToggleWitness.togglePathState 5).togglePathState 5).togglePathState
        5).connectionLines 5 = some PATH_STATES_TRANSPARENT := by
  have h := c3_toggle_cycle pmToggleWitness 5 PATH_STATES_TRANSPARENT rfl (by decide)
  refine ⟨?_, h.2.2.2⟩
  rw [h.1]
  rfl

theorem createSingleLine_isEnabled (pm : PathManager) (cfg : LayoutConfig) (i j : ℕ) :
    (pm.createSingleLine cfg i j).isEnabled = pm.isEnabled := by
  unfold PathManager.createSingleLine
  split <;> rfl

theorem createSingleLine_lines (pm : PathManager) (cfg : LayoutConfig) (i j : ℕ)
    (h : pm.isEnabled = true) :
    (pm.createSingleLine cfg i j).connectionLines =
      pm.connectionLines ++ [createSingleLineData cfg pm.nextElementId i j] ∧
    (pm.createSingleLine cfg i j).nextElementId = pm.nextElementId + 1 := by
  unfold PathManager.createSingleLine
  rw [if_neg (by simp [h])]
  exact ⟨rfl, rfl⟩

theorem createConnectionLines_foldl_lines (cfg : LayoutConfig) (L : List (ℕ × ℕ))
    (pm : PathManager) (h : pm.isEnabled = true) :
    (L.foldl (fun acc c => acc.createSingleLine cfg c.1 c.2) pm).connectionLines =
      pm.connectionLines ++ buildLines cfg pm.nextElementId L := by
  induction L generalizing pm with
  | nil => simp [buildLines]
  | cons p ps ih =>
      have hstep := createSingleLine_lines pm cfg p.1 p.2 h
      show ((ps.foldl (fun acc c => acc.createSingleLine cfg c.1 c.2)
          (pm.createSingleLine cfg p.1 p.2)).connectionLines) = _
      rw [ih (pm.createSingleLine cfg p.1 p.2)
        (by rw [createSingleLine_isEnabled]; exact h), hstep.1, hstep.2]
      simp [buildLines]

theorem createConnectionLines_lines (pm : PathManager) (cfg : LayoutConfig)
    (L : List (ℕ × ℕ)) (h : pm.isEnabled = true) (hne : L ≠ []) :
    (pm.createConnectionLines cfg L).connectionLines =
      pm.connectionLines ++ buildLines cfg pm.nextElementId L := by
  unfold PathManager.createConnectionLines
  rw [if_neg (by simp [h]), if_neg (by simpa [List.isEmpty_iff] using hne)]
  exact createConnectionLines_foldl_lines cfg L pm h

theorem rebuildAllPaths_lines (pm : PathManager) (cfg : LayoutConfig)
    (hen : pm.isEnabled = true) (hne : pairsNat cfg.itemCount ≠ []) :
    (pm.rebuildAllPaths cfg).connectionLines =
      (buildLines cfg pm.nextElementId (pairsNat cfg.itemCount)).map
        (restoreState (savedStates pm.connectionLines)) := by
  unfold PathManager.rebuildAllPaths
  rw [if_neg (by simp [hen])]
  dsimp only
  rw [createConnectionLines_lines _ _ _ (by simpa [PathManager.clearConnections] using hen) hne]
  rfl

theorem restoreState_fromIdx (m : ℕ × ℕ → Option ℕ) (l : LineData) :
    (restoreState m l).fromIdx = l.fromIdx := by
  unfold restoreState
  cases m (l.fromIdx, l.toIdx) <;> rfl

theorem restoreState_toIdx (m : ℕ × ℕ → Option ℕ) (l : LineData) :
    (restoreState m l).toIdx = l.toIdx := by
  unfold restoreState
  cases m (l.fromIdx, l.toIdx) <;> rfl

theorem restoreState_pathData (m : ℕ × ℕ → Option ℕ) (l : LineData) :
    (restoreState m l).pathData = l.pathData := by
  unfold restoreState
  cases m (l.fromIdx, l.toIdx) <;> rfl

theorem restoreState_state (m : ℕ × ℕ → Option ℕ) (l : LineData) :
    (restoreState m l).state = (m (l.fromIdx, l.toIdx)).getD l.state := by
  unfold restoreState
  cases m (l.fromIdx, l.toIdx) <;> rfl

theorem stateOfKey_build_restore (cfg : LayoutConfig) (m : ℕ × ℕ → Option ℕ) (startId : ℕ)
    (L : List (ℕ × ℕ)) (k : ℕ × ℕ) (hk : k ∈ L) :
    stateOfKey ((buildLines cfg startId L).map (restoreState m)) k =
      some ((m k).getD PATH_STATES_TRANSPARENT) := by
  induction L generalizing startId with
  | nil => cases hk
  | cons p ps ih =>
      have hkey : ((restoreState m (createSingleLineData cfg startId p.1 p.2)).fromIdx,
          (restoreState m (createSingleLineData cfg startId p.1 p.2)).toIdx) = (p.1, p.2) := by
        rw [restoreState_fromIdx, restoreState_toIdx]
        rfl
      by_cases hp : (p.1, p.2) = k
      · simp only [buildLines, List.map_cons]
        unfold stateOfKey
        rw [List.find?_cons_of_pos _ (by simp [hkey, hp])]
        simp only [Option.map_some']
        rw [restoreState_state]
        have hst : (createSingleLineData cfg startId p.1 p.2).state =
            PATH_STATES_TRANSPARENT := rfl
        rw [hst]
        have hkk : ((createSingleLineData cfg startId p.1 p.2).fromIdx,
            (createSingleLineData cfg startId p.1 p.2).toIdx) = k := by
          rw [← hp]
          rfl
        rw [hkk]
      · have hk' : k ∈ ps := by
          rcases List.mem_cons.mp hk with rfl | hmem
          · exact absurd (by simp : (k.1, k.2) = k) (by simpa using hp)
          · exact hmem
        simp only [buildLines, List.map_cons]
        unfold stateOfKey
        rw [List.find?_cons_of_neg _ (by simp [hkey, hp])]
        exact ih (startId + 1) hk'

/-- C4: after a configuration-change rebuild of the edge set
(`_rebuildAllPaths` on an enabled manager), every new edge `(i, j)` (with
`i < j < itemCount`) whose key existed before the rebuild has its previous
persisted state restored, and every new edge whose key had no prior entry
has the default state `TRANSPARENT`. -/
theorem c4_rebuild_restores_states (pm : PathManager) (cfg : LayoutConfig)
    (hen : pm.isEnabled = true) (i j : ℕ) (hij : i < j) (hj : j < cfg.itemCount) :
    stateOfKey (pm.rebuildAllPaths cfg).connectionLines (i, j) =
      some ((savedStates pm.connectionLines (i, j)).getD PATH_STATES_TRANSPARENT) := by
  have hk : ((i, j) : ℕ × ℕ) ∈ pairsNat cfg.itemCount := (mem_pairsNat _ _).mpr ⟨hij, hj⟩
  have hne : pairsNat cfg.itemCount ≠ [] := by
    intro hnil
    rw [hnil] at hk
    cases hk
  rw [rebuildAllPaths_lines pm cfg hen hne]
  exact stateOfKey_build_restore cfg _ pm.nextElementId _ (i, j) hk

/-- Witness for C4, matching the spec §8 scenario: after a rebuild at 6
items, the previously `GREEN_SOLID` edge `(1,3)` is still `GREEN_SOLID`,
and the fresh edge `(0,1)` defaults to `TRANSPARENT`. -/
theorem c4_rebuild_restores_states_witness :
    stateOfKey (pmWitness.rebuildAllPaths cfgTablet).connectionLines (1, 3) =
      some PATH_STATES_GREEN_SOLID ∧
    stateOfKey (pmWitness.rebuildAllPaths cfgTablet).connectionLines (0, 1) =
      some PATH_STATES_TRANSPARENT := by
  have h1 := c4_rebuild_restores_states pmWitness cfgTablet rfl 1 3 (by decide)
    (by norm_num [cfgTablet])
  have h2 := c4_rebuild_restores_states pmWitness cfgTablet rfl 0 1 (by decide)
    (by norm_num [cfgTablet])
  constructor
  · rw [h1]
    rfl
  · rw [h2]
    rfl

/-! ## Counting diagonal pairs (C9) -/

theorem countP_flatMap {α β : Type} (L : List α) (f : α → List β) (q : β → Bool) :
    ((L.flatMap f).countP q) = (L.map fun a => (f a).countP q).sum := by
  induction L with
  | nil => rfl
  | cons a l ih => simp [List.flatMap_cons, List.countP_append, ih]

theorem countP_range'_eq (v s len : ℕ) :
    (List.range' s len).countP (fun j => decide (j = v)) =
      if s ≤ v ∧ v < s + len then 1 else 0 := by
  induction len generalizing s with
  | zero =>
      simp only [List.range', List.countP_nil]
      rw [if_neg (by omega)]
  | succ n ih =>
      rw [List.range'_succ, List.countP_cons, ih (s + 1)]
      simp only [decide_eq_true_eq]
      split_ifs <;> omega

theorem sum_map_ite_lt (n k : ℕ) :
    ((List.range n).map fun i => if i < k then 1 else 0).sum = min k n := by
  induction n with
  | zero => simp
  | succ n ih =>
      rw [List.range_succ, List.map_append, List.sum_append, ih]
      simp only [List.map_cons, List.map_nil, List.sum_cons, List.sum_nil]
      split_ifs <;> omega

theorem pairsNat_diag_count (cfg : LayoutConfig) (n : ℕ) (h2 : 2 ≤ n) (he : n % 2 = 0) :
    (pairsNat n).countP (fun p => decide (isDiagonalPair cfg p.1 p.2 n)) = n / 2 := by
  have hres : resolveItemCount cfg n = n := by
    unfold resolveItemCount
    rw [if_neg (by omega)]
  unfold pairsNat
  rw [countP_flatMap]
  have hinner : ∀ i ∈ List.range n,
      ((List.range' (i + 1) (n - (i + 1))).map fun j => (i, j)).countP
        (fun p => decide (isDiagonalPair cfg p.1 p.2 n)) =
      if i < n / 2 then 1 else 0 := by
    intro i hi
    have hi' : i < n := List.mem_range.mp hi
    rw [List.countP_map]
    have hcong : ∀ j ∈ List.range' (i + 1) (n - (i + 1)),
        (((fun p => decide (isDiagonalPair cfg p.1 p.2 n)) ∘ fun j => (i, j)) j = true ↔
         (fun j => decide (j = i + n / 2)) j = true) := by
      intro j hj
      have hj' := List.mem_range'_1.mp hj
      simp only [Function.comp_apply, decide_eq_true_eq]
      unfold isDiagonalPair
      rw [hres]
      constructor
      · rintro ⟨hmod, habs⟩
        omega
      · intro hjv
        exact ⟨he, by omega⟩
    rw [List.countP_congr hcong, countP_range'_eq (i + n / 2) (i + 1) (n - (i + 1))]
    split_ifs <;> omega
  rw [List.map_congr_left hinner, sum_map_ite_lt]
  omega

theorem buildLines_length (cfg : LayoutConfig) (startId : ℕ) (L : List (ℕ × ℕ)) :
    (buildLines cfg startId L).length = L.length := by
  induction L generalizing startId with
  | nil => rfl
  | cons p ps ih => simp [buildLines, ih]

theorem buildLines_countP (cfg : LayoutConfig) (startId : ℕ) (L : List (ℕ × ℕ))
    (pred : LineData → Bool) (q : ℕ × ℕ → Bool)
    (hq : ∀ (id : ℕ) (p : ℕ × ℕ), pred (createSingleLineData cfg id p.1 p.2) = q p) :
    (buildLines cfg startId L).countP pred = L.countP q := by
  induction L generalizing startId with
  | nil => rfl
  | cons p ps ih => rw [buildLines, List.countP_cons, List.countP_cons, ih, hq]

theorem mem_buildLines (cfg : LayoutConfig) (startId : ℕ) (L : List (ℕ × ℕ)) :
    ∀ l ∈ buildLines cfg startId L,
      ∃ (id : ℕ), ∃ p ∈ L, l = createSingleLineData cfg id p.1 p.2 := by
  induction L generalizing startId with
  | nil => intro l hl; cases hl
  | cons p ps ih =>
      intro l hl
      rcases List.mem_cons.mp hl with rfl | hl'
      · exact ⟨startId, p, List.mem_cons_self p ps, rfl⟩
      · obtain ⟨id, q, hq, rfl⟩ := ih (startId + 1) l hl'
        exact ⟨id, q, List.mem_cons_of_mem p hq, rfl⟩

theorem createSingleLineData_isLinear (cfg : LayoutConfig) (id i j : ℕ) :
    (createSingleLineData cfg id i j).pathData.isLinear =
      decide (isDiagonalPair cfg i j cfg.itemCount) := by
  unfold createSingleLineData
  by_cases h : isDiagonalPair cfg i j cfg.itemCount
  · simp [h, createLinearPath, PathData.isLinear]
  · simp [h, createArcPath, PathData.isLinear]

theorem isQuadratic_eq_not_isLinear (pd : PathData) :
    pd.isQuadratic = !pd.isLinear := by
  cases pd <;> rfl

theorem countP_not_eq_length_sub {α : Type} (l : List α) (p : α → Bool) :
    l.countP (fun a => !(p a)) = l.length - l.countP p := by
  induction l with
  | nil => rfl
  | cons a t ih =>
      have hle := List.countP_le_length (p := p) (l := t)
      rw [List.countP_cons, List.countP_cons, List.length_cons, ih]
      cases hpa : p a <;> simp [hpa] <;> omega

/-- C9: for every even N >= 2, among the N*(N-1)/2 canonically enumerated
edges exactly N/2 are opposite pairs — `isDiagonalPair(a, b, N)` holds iff N
is even and `|a-b| = N/2` — and, in the freshly rebuilt edge set, exactly
those N/2 edges carry a straight-segment path while every other edge carries
a quadratic-curve path. -/
theorem c9_diagonal_pairs_straight (cfg : LayoutConfig) (pm : PathManager) (n : ℕ)
    (hn : cfg.itemCount = n) (h2 : 2 ≤ n) (he : n % 2 = 0)
    (hen : pm.isEnabled = true) (hempty : pm.connectionLines = []) :
    (∀ a b : ℕ, isDiagonalPair cfg a b n ↔
      (n % 2 = 0 ∧ ((a : ℤ) - (b : ℤ)).natAbs = n / 2)) ∧
    (pm.rebuildAllPaths cfg).connectionLines.length = n * (n - 1) / 2 ∧
    (pm.rebuildAllPaths cfg).connectionLines.countP (fun l => l.pathData.isLinear) = n / 2 ∧
    (pm.rebuildAllPaths cfg).connectionLines.countP (fun l => l.pathData.isQuadratic) =
      n * (n - 1) / 2 - n / 2 ∧
    (∀ l ∈ (pm.rebuildAllPaths cfg).connectionLines,
      l.pathData.isLinear = true ↔ isDiagonalPair cfg l.fromIdx l.toIdx n) := by
  subst hn
  have hres : resolveItemCount cfg cfg.itemCount = cfg.itemCount := by
    unfold resolveItemCount
    by_cases h : cfg.itemCount = 0 <;> simp [h]
  have hne : pairsNat cfg.itemCount ≠ [] := by
    intro hnil
    have : ((0, 1) : ℕ × ℕ) ∈ pairsNat cfg.itemCount :=
      (mem_pairsNat _ _).mpr ⟨by omega, by omega⟩
    rw [hnil] at this
    cases this
  have hlines := rebuildAllPaths_lines pm cfg hen hne
  have hid : ∀ l ∈ buildLines cfg pm.nextElementId (pairsNat cfg.itemCount),
      restoreState (savedStates pm.connectionLines) l = l := by
    intro l _
    rw [hempty]
    rfl
  rw [List.map_congr_left hid, List.map_id'] at hlines
  have hlin := createSingleLineData_isLinear cfg
  refine ⟨?_, ?_, ?_, ?_, ?_⟩
  · intro a b
    unfold isDiagonalPair
    rw [hres]
  · rw [hlines, buildLines_length, pairsNat_length]
  · rw [hlines, buildLines_countP cfg pm.nextElementId _ _
      (fun p => decide (isDiagonalPair cfg p.1 p.2 cfg.itemCount)) (fun id p => hlin id p.1 p.2)]
    exact pairsNat_diag_count cfg cfg.itemCount h2 he
  · have hconv : (pm.rebuildAllPaths cfg).connectionLines.countP
        (fun l => l.pathData.isQuadratic) =
        (pm.rebuildAllPaths cfg).connectionLines.countP
          (fun l => !(l.pathData.isLinear)) := by
      apply List.countP_congr
      intro l _
      rw [isQuadratic_eq_not_isLinear]
    have hlincount : (pm.rebuildAllPaths cfg).connectionLines.countP
        (fun l => l.pathData.isLinear) = cfg.itemCount / 2 := by
      rw [hlines, buildLines_countP cfg pm.nextElementId _ _
        (fun p => decide (isDiagonalPair cfg p.1 p.2 cfg.itemCount)) (fun id p => hlin id p.1 p.2)]
      exact pairsNat_diag_count cfg cfg.itemCount h2 he
    have hlength : (pm.rebuildAllPaths cfg).connectionLines.length =
        cfg.itemCount * (cfg.itemCount - 1) / 2 := by
      rw [hlines, buildLines_length, pairsNat_length]
    rw [hconv, countP_not_eq_length_sub, hlincount, hlength]
  · intro l hl
    rw [hlines] at hl
    obtain ⟨id, p, hp, rfl⟩ := mem_buildLines cfg pm.nextElementId _ l hl
    rw [createSingleLineData_isLinear]
    have hfrom : (createSingleLineData cfg id p.1 p.2).fromIdx = p.1 := rfl
    have hto : (createSingleLineData cfg id p.1 p.2).toIdx = p.2 := rfl
    rw [hfrom, hto]
    exact decide_eq_true_iff

/-- Witness for C9 at N = 4: 6 edges, exactly 2 straight, 4 curved. -/
theorem c9_diagonal_pairs_straight_witness :
    (pmEmpty.rebuildAllPaths cfgSquare).connectionLines.countP
      (fun l => l.pathData.isLinear) = 2 ∧
    (pmEmpty.rebuildAllPaths cfgSquare).connectionLines.countP
      (fun l => l.pathData.isQuadratic) = 4 ∧
    (pmEmpty.rebuildAllPaths cfgSquare).connectionLines.length = 6 := by
  have h := c9_diagonal_pairs_straight cfgSquare pmEmpty 4 rfl (by norm_num) (by norm_num)
    rfl rfl
  refine ⟨by simpa using h.2.2.1, by simpa using h.2.2.2.1, by simpa using h.2.1⟩

/-! ## Responsive notification and breakpoint theorems -/

/-- C5: for a burst of resize events coalesced within one debounce window,
with a previously-notified breakpoint recorded: if the settled breakpoint
(computed from the last width) has the same name, subscribers receive zero
notifications; if it differs, the invocation list is exactly the registered
callbacks in registration order, each receiving the settled breakpoint — in
particular each distinctly registered subscriber is invoked exactly once. -/
theorem c5_resize_debounce_notification (st : RCMState) (bp : Breakpoint)
    (hcur : st.currentBreakpoint = some bp) (ws : List ℚ) (w : ℚ)
    (hlast : ws.getLast? = some w) :
    ((getBreakpoint w).name = bp.name → (resizeBurst ws st).2 = []) ∧
    ((getBreakpoint w).name ≠ bp.name →
      (resizeBurst ws st).2 = st.resizeCallbacks.map (fun c => (c, getBreakpoint w)) ∧
      ((resizeBurst ws st).2.map Prod.fst = st.resizeCallbacks) ∧
      (st.resizeCallbacks.Nodup → ∀ c ∈ st.resizeCallbacks,
        ((resizeBurst ws st).2.map Prod.fst).count c = 1)) := by
  have hburst : resizeBurst ws st = debounceTimerFire w st := by
    unfold resizeBurst
    rw [hlast]
  have hfire : debounceTimerFire w st =
      if (getBreakpoint w).name ≠ bp.name then fireCallbacks (getBreakpoint w) st
      else (st, []) := by
    unfold debounceTimerFire
    rw [hcur]
  rw [hburst, hfire]
  constructor
  · intro hsame
    rw [if_neg (by simpa using hsame)]
  · intro hdiff
    rw [if_pos hdiff]
    unfold fireCallbacks
    have hcomp : (Prod.fst ∘ fun c : ℕ => (c, getBreakpoint w)) = id := rfl
    refine ⟨rfl, ?_, ?_⟩
    · rw [List.map_map, hcomp, List.map_id]
    · intro hnd c hc
      have hmap : ((st.resizeCallbacks.map fun c => (c, getBreakpoint w)).map Prod.fst) =
          st.resizeCallbacks := by
        rw [List.map_map, hcomp, List.map_id]
      rw [hmap]
      exact List.count_eq_one_of_mem hnd hc

/-- Witness for C5: two subscribers previously on desktop; a burst settling
on mobile notifies both in order, a burst settling back on desktop notifies
nobody. -/
theorem c5_resize_debounce_notification_witness :
    (resizeBurst [500, 300] rcmWitness).2 =
      [(10, BREAKPOINTS_MOBILE), (11, BREAKPOINTS_MOBILE)] ∧
    (resizeBurst [800, 1000] rcmWitness).2 = [] := by
  have hb300 : getBreakpoint 300 = BREAKPOINTS_MOBILE := by
    unfold getBreakpoint
    rw [if_neg (by norm_num), if_neg (by rintro ⟨hh, _⟩; norm_num at hh)]
  have hb1000 : getBreakpoint 1000 = BREAKPOINTS_DESKTOP := by
    unfold getBreakpoint
    rw [if_pos (by norm_num)]
  have h1 := c5_resize_debounce_notification rcmWitness BREAKPOINTS_DESKTOP rfl
    [500, 300] 300 rfl
  have h2 := c5_resize_debounce_notification rcmWitness BREAKPOINTS_DESKTOP rfl
    [800, 1000] 1000 rfl
  constructor
  · rw [(h1.2 (by rw [hb300]; decide)).1, hb300]
    rfl
  · exact h2.1 (by rw [hb1000])

theorem inRange_desktop (q : ℚ) : inRange BREAKPOINTS_DESKTOP q = decide (769 ≤ q) := by
  simp [inRange, BREAKPOINTS_DESKTOP]

theorem inRange_tablet (q : ℚ) :
    inRange BREAKPOINTS_TABLET q = (decide (481 ≤ q) && decide (q ≤ 768)) := by
  simp [inRange, BREAKPOINTS_TABLET]

theorem inRange_mobile (q : ℚ) : inRange BREAKPOINTS_MOBILE q = decide (q ≤ 480) := by
  simp [inRange, BREAKPOINTS_MOBILE]

/-- C6 counterexample: at the fractional width 480.5 no tier's declared
range contains the width (mobile ends at 480, tablet starts at 481), yet the
code selects the mobile tier — so over arbitrary real widths the tiers are
not contiguous and the selected tier is not always the one whose declared
range contains the width. -/
theorem c6_breakpoint_partition_counterexample :
    inRange BREAKPOINTS_MOBILE (961 / 2) = false ∧
    inRange BREAKPOINTS_TABLET (961 / 2) = false ∧
    inRange BREAKPOINTS_DESKTOP (961 / 2) = false ∧
    getBreakpoint (961 / 2) = BREAKPOINTS_MOBILE := by
  refine ⟨?_, ?_, ?_, ?_⟩
  · have h : ¬ (961 / 2 : ℚ) ≤ 480 := by norm_num
    simp [inRange_mobile, h]
  · have h : ¬ (481 : ℚ) ≤ 961 / 2 := by norm_num
    simp [inRange_tablet, h]
  · have h : ¬ (769 : ℚ) ≤ 961 / 2 := by norm_num
    simp [inRange_desktop, h]
  · unfold getBreakpoint
    rw [if_neg (by norm_num), if_neg (by rintro ⟨hh, _⟩; norm_num at hh)]

/-- C6 (amended): `getBreakpoint` always selects exactly one of the three
tiers, and restricted to integer viewport widths the declared ranges
(mobile up to 480, tablet 481 to 768, desktop from 769) are contiguous and
non-overlapping, so the selected tier is precisely the one whose declared
range contains the width. -/
theorem c6_breakpoint_partition_int (w : ℕ) :
    (∀ q : ℚ, getBreakpoint q = BREAKPOINTS_DESKTOP ∨ getBreakpoint q = BREAKPOINTS_TABLET ∨
      getBreakpoint q = BREAKPOINTS_MOBILE) ∧
    inRange (getBreakpoint (w : ℚ)) (w : ℚ) = true ∧
    (∀ bp : Breakpoint,
      (bp = BREAKPOINTS_DESKTOP ∨ bp = BREAKPOINTS_TABLET ∨ bp = BREAKPOINTS_MOBILE) →
      inRange bp (w : ℚ) = true → bp = getBreakpoint (w : ℚ)) := by
  refine ⟨?_, ?_, ?_⟩
  · intro q
    unfold getBreakpoint
    split_ifs <;> simp
  · by_cases h1 : 769 ≤ w
    · have h1' : (769 : ℚ) ≤ (w : ℚ) := by exact_mod_cast h1
      unfold getBreakpoint
      rw [if_pos h1', inRange_desktop]
      simpa using h1'
    · by_cases h2 : 481 ≤ w
      · have h2' : (481 : ℚ) ≤ (w : ℚ) := by exact_mod_cast h2
        have h3' : (w : ℚ) ≤ 768 := by exact_mod_cast (by omega : w ≤ 768)
        unfold getBreakpoint
        rw [if_neg (by simpa using (by exact_mod_cast (by omega : ¬ 769 ≤ w) : ¬ (769 : ℚ) ≤ (w : ℚ))),
          if_pos ⟨h2', h3'⟩, inRange_tablet]
        simp [h2', h3']
      · have h4' : (w : ℚ) ≤ 480 := by exact_mod_cast (by omega : w ≤ 480)
        have hno1 : ¬ (769 : ℚ) ≤ (w : ℚ) := by exact_mod_cast (by omega : ¬ 769 ≤ w)
        have hno2 : ¬ (481 : ℚ) ≤ (w : ℚ) := by exact_mod_cast (by omega : ¬ 481 ≤ w)
        unfold getBreakpoint
        rw [if_neg (by simpa using hno1), if_neg (by simp [hno2]), inRange_mobile]
        simpa using h4'
  · intro bp hbp hin
    by_cases h1 : 769 ≤ w
    · have h1' : (769 : ℚ) ≤ (w : ℚ) := by exact_mod_cast h1
      have hsel : getBreakpoint (w : ℚ) = BREAKPOINTS_DESKTOP := by
        unfold getBreakpoint
        rw [if_pos h1']
      rw [hsel]
      rcases hbp with rfl | rfl | rfl
      · rfl
      · rw [inRange_tablet] at hin
        simp only [Bool.and_eq_true, decide_eq_true_eq] at hin
        have : (w : ℚ) ≤ 768 := hin.2
        have : w ≤ 768 := by exact_mod_cast this
        omega
      · rw [inRange_mobile] at hin
        simp only [decide_eq_true_eq] at hin
        have : w ≤ 480 := by exact_mod_cast hin
        omega
    · by_cases h2 : 481 ≤ w
      · have hno1 : ¬ (769 : ℚ) ≤ (w : ℚ) := by exact_mod_cast (by omega : ¬ 769 ≤ w)
        have h2' : (481 : ℚ) ≤ (w : ℚ) := by exact_mod_cast h2
        have h3' : (w : ℚ) ≤ 768 := by exact_mod_cast (by omega : w ≤ 768)
        have hsel : getBreakpoint (w : ℚ) = BREAKPOINTS_TABLET := by
          unfold getBreakpoint
          rw [if_neg (by simpa using hno1), if_pos ⟨h2', h3'⟩]
        rw [hsel]
        rcases hbp with rfl | rfl | rfl
        · rw [inRange_desktop] at hin
          simp only [decide_eq_true_eq] at hin
          have : 769 ≤ w := by exact_mod_cast hin
          omega
        · rfl
        · rw [inRange_mobile] at hin
          simp only [decide_eq_true_eq] at hin
          have : w ≤ 480 := by exact_mod_cast hin
          omega
      · have hno1 : ¬ (769 : ℚ) ≤ (w : ℚ) := by exact_mod_cast (by omega : ¬ 769 ≤ w)
        have hno2 : ¬ (481 : ℚ) ≤ (w : ℚ) := by exact_mod_cast (by omega : ¬ 481 ≤ w)
        have hsel : getBreakpoint (w : ℚ) = BREAKPOINTS_MOBILE := by
          unfold getBreakpoint
          rw [if_neg (by simpa using hno1), if_neg (by simp [hno2])]
        rw [hsel]
        rcases hbp with rfl | rfl | rfl
        · rw [inRange_desktop] at hin
          simp only [decide_eq_true_eq] at hin
          have : 769 ≤ w := by exact_mod_cast hin
          omega
        · rw [inRange_tablet] at hin
          simp only [Bool.and_eq_true, decide_eq_true_eq] at hin
          have : 481 ≤ w := by exact_mod_cast hin.1
          omega
        · rfl

/-- Witness for C6 (amended) at the integer width 768: the tablet tier is
selected and contains it. -/
theorem c6_breakpoint_partition_int_witness :
    inRange (getBreakpoint ((768 : ℕ) : ℚ)) ((768 : ℕ) : ℚ) = true ∧
    getBreakpoint ((768 : ℕ) : ℚ) = BREAKPOINTS_TABLET := by
  refine ⟨(c6_breakpoint_partition_int 768).2.1, ?_⟩
  unfold getBreakpoint
  rw [if_neg (by norm_num), if_pos (by norm_num)]

end GraphViewer
